import Mathlib

/-!
Shallow embedding of the condition-evaluation core of
`Tools/autotest/common.py` (ArduPilot autotest harness): the parameter
context stack (`set_parameter`, `context_push`, `context_pop`), the
command dispatch/acknowledge loop (`run_cmd`), and the polling wait
loops (`wait_heading`, `wait_yaw_speed`, `wait_speed_vector`,
`wait_distance`, `wait_location`, `wait_waypoint`).

Modelling conventions:
* Numeric telemetry values and simulated time are rationals (`ℚ`);
  the Python floats carry exact decimal values in all scenarios of
  interest here.
* The external MAVProxy/vehicle collaborator (the transport) is a
  parameter of each definition: a `ParamChannel` for the parameter
  store, and streams `ℕ → _` for telemetry samples, simulated-clock
  readings and command acknowledgments.
* Python exceptions become an explicit error component: a mutating
  method returns `SimState × Option PErr`, the state reached when it
  returned or raised together with the exception, if any.  This keeps
  the partial mutations a Python exception leaves behind.
* The unbounded `while` loops are run with explicit fuel (number of
  loop iterations); `none` means the loop is still running after that
  many iterations.
* `self.get_sim_time()` blocks for a SYSTEM_TIME message; we model the
  simulated clock as a per-loop-iteration reading `time : ℕ → ℚ`: all
  `get_sim_time()` calls made during iteration `k` return `time k`,
  and the pre-loop `tstart` reading is `time 0`.
-/

/-- Python exceptions raised by the modelled methods: `ValueError` from
`set_parameter` / `run_cmd`, `IndexError` from indexing an empty
context list. -/
inductive PErr where
  | valueError : PErr
  | indexError : PErr
deriving DecidableEq, Repr

/-- The vehicle's parameter store, as observed through `param fetch`. -/
def Store : Type := String → ℚ

/-- Point update of a parameter store. -/
def updateStore (st : Store) (name : String) (v : ℚ) : Store :=
  fun m => if m = name then v else st m

/-- Python's `math.fabs`, the absolute value used by every wait loop's
tolerance test. -/
def fabs (x : ℚ) : ℚ := if x < 0 then -x else x


/-- The external MAVProxy/vehicle transport for parameters: the effect
of sending `param set name value` on the store, and the value a
`param fetch name` reports.  `AutoTest.get_parameter` is modelled as
`fetch`: the pexpect read is assumed to answer (its timeout path lies
in the excluded transport collaborator). -/
structure ParamChannel where
  write : String → ℚ → Store → Store
  fetch : Store → String → ℚ

/-- The ideal transport: writes take effect verbatim and fetches read
the store. -/
def idealChan : ParamChannel where
  write := fun name v st => updateStore st name v
  fetch := fun st name => st name

/-- `class Context`: an ordered list of `(name, previous_value)`
pairs, appended at the tail (newest last), as in the Python list. -/
structure Context where
  parameters : List (String × ℚ)
deriving DecidableEq, Repr

/-- The mutable state of the `AutoTest` session that the parameter
stack touches: the vehicle parameter store and `self.contexts`.  The
Python list grows at the tail; we keep the top context at the head of
the Lean list (`contexts[-1]` is the head here). -/
structure SimState where
  store : Store
  contexts : List Context

/-- The `for i in range(1, 10)` retry loop of `AutoTest.set_parameter`:
each attempt sends `param set`, fetches the value back, and on exact
equality appends `(name, old_value)` to the current context (when
`add_to_context`) and returns; after the attempts are exhausted it
raises `ValueError`.  `old` is the `old_value` fetched before the
loop.  Appending with no context on the stack raises `IndexError`
(`self.contexts[-1]` on an empty list). -/
def setParamAttempts (ch : ParamChannel) (name : String) (value : ℚ)
    (addToContext : Bool) (old : ℚ) : ℕ → SimState → SimState × Option PErr
  | 0, s => (s, some PErr.valueError)
  | n + 1, s =>
    let store' := ch.write name value s.store
    let s' : SimState := { s with store := store' }
    if ch.fetch store' name = value then
      if addToContext then
        match s'.contexts with
        | [] => (s', some PErr.indexError)
        | c :: rest =>
          ({ s' with
             contexts := { parameters := c.parameters ++ [(name, old)] } :: rest },
           none)
      else (s', none)
    else setParamAttempts ch name value addToContext old n s'

/-- `AutoTest.set_parameter(name, value, add_to_context)`: reads
`old_value = get_parameter(name, retry=2)`, then runs the 9-attempt
write/read-back loop. -/
def set_parameter (ch : ParamChannel) (name : String) (value : ℚ)
    (addToContext : Bool) (s : SimState) : SimState × Option PErr :=
  setParamAttempts ch name value addToContext (ch.fetch s.store name) 9 s

/-- `AutoTest.context_push`: append a fresh empty `Context`. -/
def context_push (s : SimState) : SimState :=
  { s with contexts := { parameters := [] } :: s.contexts }

/-- The restore loop of `AutoTest.context_pop`: for each recorded pair
in the (already reversed) list call
`set_parameter(name, old_value, add_to_context=False)`.  A raised
exception propagates at once: the remaining pairs are not attempted
(the Python loop body has no try/except). -/
def restorePairs (ch : ParamChannel) :
    List (String × ℚ) → SimState → SimState × Option PErr
  | [], s => (s, none)
  | (name, v) :: ps, s =>
    match set_parameter ch name v false s with
    | (s', none) => restorePairs ch ps s'
    | (s', some e) => (s', some e)

/-- `AutoTest.context_pop`: pop the current context and restore its
recorded pairs in reverse order of recording. -/
def context_pop (ch : ParamChannel) (s : SimState) : SimState × Option PErr :=
  match s.contexts with
  | [] => (s, some PErr.indexError)
  | dead :: rest =>
    restorePairs ch dead.parameters.reverse { s with contexts := rest }

/-- Scenario combinator: a sequence of recording `set_parameter` calls
for one name, stopping at the first raised exception (as straight-line
Python test code would). -/
def setSeq (ch : ParamChannel) (name : String) :
    List ℚ → SimState → SimState × Option PErr
  | [], s => (s, none)
  | v :: vs, s =>
    match set_parameter ch name v true s with
    | (s', none) => setSeq ch name vs s'
    | (s', some e) => (s', some e)

/-- The store after `n` further `param set name value` sends, starting
from `st` (the read-backs the retry loop of `set_parameter` sees). -/
def iterWrite (ch : ParamChannel) (name : String) (value : ℚ) :
    ℕ → Store → Store
  | 0, st => st
  | n + 1, st => iterWrite ch name value n (ch.write name value st)

/-- Outcome of a sustained wait loop: `achieved` models `return True`,
`timedOut` models falling off the `while` loop and raising the
timeout exception of the condition kind (`WaitHeadingTimeout`,
`YawSpeedNotAchievedException`, `SpeedVectorNotAchievedException`). -/
inductive WaitRes where
  | achieved : WaitRes
  | timedOut : WaitRes
deriving DecidableEq, Repr

/-- The shared shape of the sustained wait loops of `wait_heading`,
`wait_yaw_speed` and `wait_speed_vector` (their Python bodies are
line-for-line copies of each other up to the matched telemetry and the
accumulated mean).  Arguments: per-iteration clock `time`, sample
stream `samp`, the in-tolerance test `matchF`, the mean accumulator
`acc` with its reset value `zero`, loop start time `tstart`,
`maintain_target_time` and `timeout`; then fuel, the iteration index
`k`, `duration_start`, the running mean and the match counter.

One iteration: test `time k < tstart + timeout`; on failure raise the
timeout exception.  Otherwise receive `samp k`; if it matches,
accumulate it, set `duration_start` on the first consecutive match,
and return `achieved` when `time k - duration_start` exceeds
(strictly) `maintain`; if it does not match, reset `duration_start`,
the mean and the counter.  (`the_function` is `None` here: the claims
quantify over waits with no per-tick action.) -/
def sustainRun {β α : Type} (time : ℕ → ℚ) (samp : ℕ → β)
    (matchF : β → Bool) (acc : β → α → α) (zero : α)
    (tstart maintain timeout : ℚ) :
    ℕ → ℕ → Option ℚ → α → ℚ → Option WaitRes
  | 0, _, _, _, _ => none
  | fuel + 1, k, ds, mean, counter =>
    if time k < tstart + timeout then
      let v := samp k
      if matchF v then
        let mean' := acc v mean
        let counter' := counter + 1
        let d := ds.getD (time k)
        if time k - d > maintain then some WaitRes.achieved
        else sustainRun time samp matchF acc zero tstart maintain timeout
          fuel (k + 1) (some d) mean' counter'
      else sustainRun time samp matchF acc zero tstart maintain timeout
        fuel (k + 1) none zero 0
    else some WaitRes.timedOut

/-- The heading in-tolerance test of `wait_heading`, with Python's
operator precedence (`and` binds tighter than `or`):
`fabs(last_heading - heading) <= accuracy or heading <= accuracy and
fabs(m.heading - 360) <= accuracy`. -/
def headingMatch (h target accuracy : ℚ) : Bool :=
  decide (fabs (h - target) ≤ accuracy) ||
    (decide (target ≤ accuracy) && decide (fabs (h - 360) ≤ accuracy))

/-- `AutoTest.wait_heading(heading, accuracy, maintain_target_time,
timeout)` over a VFR_HUD heading stream `samp`: the sustained loop
started at `tstart = time 0`, iteration 1, no sustain window, zero
mean and counter. -/
def wait_heading (time samp : ℕ → ℚ) (heading accuracy maintain timeout : ℚ)
    (fuel : ℕ) : Option WaitRes :=
  sustainRun time samp (fun h => headingMatch h heading accuracy)
    (fun h m => m + h) 0 (time 0) maintain timeout fuel 1 none 0 0

/-- `AutoTest.wait_yaw_speed(target_yaw_speed, target_accuracy,
maintain_target_time, timeout)` over a stream of yaw rates in degrees
(`math.degrees(m.yawspeed)`). -/
def wait_yaw_speed (time samp : ℕ → ℚ)
    (target accuracy maintain timeout : ℚ) (fuel : ℕ) : Option WaitRes :=
  sustainRun time samp (fun r => decide (fabs (r - target) ≤ accuracy))
    (fun r m => m + r) 0 (time 0) maintain timeout fuel 1 none 0 0

/-- `AutoTest.wait_speed_vector(target_vx, target_vy, target_vz,
target_accuracy, maintain_target_time, timeout)` over a
LOCAL_POSITION_NED velocity stream (vx, vy, vz). -/
def wait_speed_vector (time : ℕ → ℚ) (samp : ℕ → ℚ × ℚ × ℚ)
    (tvx tvy tvz accuracy maintain timeout : ℚ) (fuel : ℕ) : Option WaitRes :=
  sustainRun time samp
    (fun v => decide (fabs (v.1 - tvx) ≤ accuracy) &&
      (decide (fabs (v.2.1 - tvy) ≤ accuracy) && decide (fabs (v.2.2 - tvz) ≤ accuracy)))
    (fun v m => (m.1 + v.1, m.2.1 + v.2.1, m.2.2 + v.2.2))
    ((0 : ℚ), (0 : ℚ), (0 : ℚ)) (time 0) maintain timeout fuel 1 none 0 0

/-- Outcome of `wait_distance`: `reached` is `return True`,
`overshootFail` the early `raise WaitDistanceTimeout()` on
`delta > distance + accuracy`, `timedOut` the raise after the
deadline.  Both failures raise the same Python exception class; the
constructors record the two distinct raise sites. -/
inductive DistRes where
  | reached : DistRes
  | overshootFail : DistRes
  | timedOut : DistRes
deriving DecidableEq, Repr

/-- `AutoTest.wait_distance(distance, accuracy, timeout)`.  `delta k`
is the measured `get_distance(start, pos)` at iteration `k` (the
geometric distance computation over positions is collapsed into the
observed stream).  `tstart = time 0`; iterations start at 1. -/
def wait_distance (time delta : ℕ → ℚ) (distance accuracy timeout : ℚ) :
    ℕ → ℕ → Option DistRes
  | 0, _ => none
  | fuel + 1, k =>
    if time k < time 0 + timeout then
      let d := delta k
      if fabs (d - distance) ≤ accuracy then some DistRes.reached
      else if d > distance + accuracy then some DistRes.overshootFail
      else wait_distance time delta distance accuracy timeout fuel (k + 1)
    else some DistRes.timedOut

/-- Outcome of `wait_location`: `return True` or the post-deadline
`raise WaitLocationTimeout()`.  The loop body has no other exit. -/
inductive LocRes where
  | reached : LocRes
  | timedOut : LocRes
deriving DecidableEq, Repr

/-- `AutoTest.wait_location(loc, accuracy, timeout, target_altitude,
height_accuracy)`.  `delta k` is `get_distance(loc, pos)` and `alt k`
is `pos.alt` at iteration `k`; `targetAlt` is `target_altitude` after
the `None` default is resolved to `loc.alt`. -/
def wait_location (time delta alt : ℕ → ℚ)
    (accuracy timeout targetAlt heightAccuracy : ℚ) :
    ℕ → ℕ → Option LocRes
  | 0, _ => none
  | fuel + 1, k =>
    if time k < time 0 + timeout then
      if delta k ≤ accuracy then
        if heightAccuracy ≠ -1 ∧ fabs (alt k - targetAlt) > heightAccuracy then
          wait_location time delta alt accuracy timeout targetAlt
            heightAccuracy fuel (k + 1)
        else some LocRes.reached
      else wait_location time delta alt accuracy timeout targetAlt
        heightAccuracy fuel (k + 1)
    else some LocRes.timedOut

/-- Outcome of `wait_waypoint`: `reached` is `return True` (final
waypoint reached, or `seq >= 255`); the three failure constructors are
the three `raise WaitWaypointTimeout()` sites (mode changed, skipped
waypoint, deadline expired) — one Python exception class, three raise
sites. -/
inductive WpRes where
  | reached : WpRes
  | modeChangedFail : WpRes
  | skipped : WpRes
  | timedOut : WpRes
deriving DecidableEq, Repr

/-- The loop state of `AutoTest.wait_waypoint`: the iteration index,
`tstart` (reset whenever a new waypoint starts), `current_wp`, and the
logging-only `last_wp_dist` / `last_alt`. -/
structure WpSt where
  k : ℕ
  tstart : ℚ
  currentWp : ℕ
  lastWpDist : ℚ
  lastAlt : ℚ
deriving DecidableEq, Repr

/-- The telemetry `wait_waypoint` observes at iteration `k`:
`seq k` is `self.mav.waypoint_current()` (with `seq 0` the pre-loop
`start_wp` read), `wpDist k` is `NAV_CONTROLLER_OUTPUT.wp_dist`,
`alt k` is `VFR_HUD.alt`, and `modeChanged k` is whether
`self.mav.flightmode` differs from the mode recorded before the
loop. -/
structure WpEnv where
  time : ℕ → ℚ
  seq : ℕ → ℕ
  wpDist : ℕ → ℚ
  alt : ℕ → ℚ
  modeChanged : ℕ → Bool

/-- The `while` loop of `AutoTest.wait_waypoint(wpnum_start, wpnum_end,
allow_skip, max_dist, timeout)`, checks in source order: deadline
guard; mode change; progress logging (updates `last_wp_dist`,
`last_alt`); advance `current_wp` (and reset `tstart`) on
`seq == current_wp+1` or a permitted skip; `return True` when
`current_wp == wpnum_end and wp_dist < max_dist` or `seq >= 255`;
`raise` on a forbidden skip. -/
def waitWpLoop (env : WpEnv) (wpnumEnd : ℕ) (allowSkip : Bool)
    (maxDist timeout : ℚ) : ℕ → WpSt → Option WpRes
  | 0, _ => none
  | fuel + 1, st =>
    if env.time st.k < st.tstart + timeout then
      let seq := env.seq st.k
      let wd := env.wpDist st.k
      let ca := env.alt st.k
      if env.modeChanged st.k then some WpRes.modeChangedFail
      else
        let logged := wd ≠ st.lastWpDist ∨ ca ≠ st.lastAlt
        let lastWpDist' := if logged then wd else st.lastWpDist
        let lastAlt' := if logged then ca else st.lastAlt
        let advance := seq = st.currentWp + 1 ∨ (seq > st.currentWp + 1 ∧ allowSkip)
        let tstart' := if advance then env.time st.k else st.tstart
        let currentWp' := if advance then seq else st.currentWp
        if currentWp' = wpnumEnd ∧ wd < maxDist then some WpRes.reached
        else if seq ≥ 255 then some WpRes.reached
        else if seq > currentWp' + 1 then some WpRes.skipped
        else waitWpLoop env wpnumEnd allowSkip maxDist timeout fuel
          { k := st.k + 1, tstart := tstart', currentWp := currentWp',
            lastWpDist := lastWpDist', lastAlt := lastAlt' }
    else some WpRes.timedOut

/-- `AutoTest.wait_waypoint`: `tstart = time 0`,
`start_wp = current_wp = seq 0`, `last_wp_dist = last_alt = 0.0`,
iterations from 1.  (`wpnum_start` only appears in logging and in a
commented-out check, so it does not parametrize the behaviour.) -/
def wait_waypoint (env : WpEnv) (wpnumEnd : ℕ) (allowSkip : Bool)
    (maxDist timeout : ℚ) (fuel : ℕ) : Option WpRes :=
  waitWpLoop env wpnumEnd allowSkip maxDist timeout fuel
    { k := 1, tstart := env.time 0, currentWp := env.seq 0,
      lastWpDist := 0, lastAlt := 0 }

/-- `AutoTest.run_cmd(command, p1..p7, want_result)` after the single
`command_long_send`: the ack-reading loop.  `acks i` is the i-th
`COMMAND_ACK` received: `(m.command, m.result)`.  `some true` models
the `break` (success), `some false` the `raise ValueError()` on a
matching ack whose result differs from `want_result`; a non-matching
ack is discarded and the loop keeps reading.  Fuel bounds the number
of acks read. -/
def runCommand (acks : ℕ → ℕ × ℕ) (command want : ℕ) :
    ℕ → ℕ → Option Bool
  | 0, _ => none
  | fuel + 1, i =>
    if (acks i).1 = command then
      if (acks i).2 ≠ want then some false
      else some true
    else runCommand acks command want fuel (i + 1)

/-! ## Concrete transports and states used by counterexamples -/

/-- A faulty transport that silently drops writes to parameter "B"
(the guard `set_parameter` exists to detect); all other parameters
behave ideally. -/
def dropChan : ParamChannel where
  write := fun name v st => if name = "B" then st else updateStore st name v
  fetch := fun st name => st name

/-- A store with A = 1 and B = 2. -/
def storeAB : Store :=
  fun n => if n = "A" then 1 else if n = "B" then 2 else 0

/-- A session whose top context recorded A's previous value 10 first
and B's previous value 20 second, over `storeAB`. -/
def sAB : SimState := ⟨storeAB, [⟨[("A", 10), ("B", 20)]⟩]⟩

/-! ## Helper lemmas: the parameter retry loop and the restore loop -/
lemma fabs_eq_abs (x : ℚ) : fabs x = |x| := by
  unfold fabs
  by_cases h : x < 0
  · rw [if_pos h, abs_of_neg h]
  · rw [if_neg h, abs_of_nonneg (le_of_not_lt h)]

lemma le_fabs_self (x : ℚ) : x ≤ fabs x := by
  rw [fabs_eq_abs]
  exact le_abs_self x

lemma updateStore_same (st : Store) (name : String) (v : ℚ) :
    updateStore st name v name = v := if_pos rfl

/-- Under the ideal transport every attempt's read-back equals the
written value, so `set_parameter` with `add_to_context=False` succeeds
on the first attempt and only updates the store. -/
lemma ideal_set_norecord (name : String) (v : ℚ) (n : ℕ) (s : SimState) :
    setParamAttempts idealChan name v false v (n + 1) s
      = ({ s with store := updateStore s.store name v }, none) := by
  simp [setParamAttempts, idealChan, updateStore_same]

lemma set_parameter_ideal_norecord (name : String) (v : ℚ) (s : SimState) :
    set_parameter idealChan name v false s
      = ({ s with store := updateStore s.store name v }, none) := by
  exact ideal_set_norecord name v 8 s

/-- Under the ideal transport a recording `set_parameter` succeeds on
the first attempt, updates the store and appends
`(name, previous store value)` to the top context. -/
lemma ideal_set_record (name : String) (v : ℚ) (st : Store) (c : Context)
    (rest : List Context) :
    set_parameter idealChan name v true ⟨st, c :: rest⟩
      = (⟨updateStore st name v, ⟨c.parameters ++ [(name, st name)]⟩ :: rest⟩,
         none) := by
  show setParamAttempts idealChan name v true (idealChan.fetch st name) (8 + 1)
    ⟨st, c :: rest⟩ = _
  simp [setParamAttempts, idealChan, updateStore_same]

/-- The retry loop, when every read-back within the budget differs
from the written value, performs all its writes and raises
`ValueError`. -/
lemma setParamAttempts_fail (ch : ParamChannel) (name : String) (value : ℚ)
    (addCtx : Bool) (old : ℚ) (n : ℕ) :
    ∀ s : SimState,
      (∀ i, 1 ≤ i → i ≤ n →
        ch.fetch (iterWrite ch name value i s.store) name ≠ value) →
      setParamAttempts ch name value addCtx old n s
        = ({ s with store := iterWrite ch name value n s.store },
           some PErr.valueError) := by
  induction n with
  | zero => intro s _; simp [setParamAttempts, iterWrite]
  | succ n ih =>
    intro s hmiss
    have h1 : ch.fetch (ch.write name value s.store) name ≠ value := by
      have := hmiss 1 le_rfl (Nat.one_le_iff_ne_zero.mpr (Nat.succ_ne_zero n))
      simpa [iterWrite] using this
    have hrec := ih { s with store := ch.write name value s.store }
      (by
        intro i h1i hin
        have := hmiss (i + 1) (Nat.le_add_left 1 i) (Nat.succ_le_succ hin)
        simpa [iterWrite] using this)
    simp only [setParamAttempts, if_neg h1]
    rw [hrec]
    simp [iterWrite]

/-- Context behaviour of the retry loop with recording on: on success
the pair `(name, old)` is appended to the top context; on failure the
error is `ValueError` and the context stack is untouched. -/
lemma setParamAttempts_contexts (ch : ParamChannel) (name : String)
    (value : ℚ) (old : ℚ) (n : ℕ) :
    ∀ (st : Store) (c : Context) (rest : List Context),
      ((setParamAttempts ch name value true old n ⟨st, c :: rest⟩).2 = none →
        (setParamAttempts ch name value true old n ⟨st, c :: rest⟩).1.contexts
          = ⟨c.parameters ++ [(name, old)]⟩ :: rest) ∧
      ((setParamAttempts ch name value true old n ⟨st, c :: rest⟩).2 ≠ none →
        (setParamAttempts ch name value true old n ⟨st, c :: rest⟩).2
            = some PErr.valueError ∧
        (setParamAttempts ch name value true old n ⟨st, c :: rest⟩).1.contexts
          = c :: rest) := by
  induction n with
  | zero =>
    intro st c rest
    refine ⟨fun h => ?_, fun _ => ?_⟩
    · simp [setParamAttempts] at h
    · simp [setParamAttempts]
  | succ n ih =>
    intro st c rest
    by_cases hf : ch.fetch (ch.write name value st) name = value
    · refine ⟨fun _ => ?_, fun h => ?_⟩
      · simp [setParamAttempts, hf]
      · simp [setParamAttempts, hf] at h
    · have := ih (ch.write name value st) c rest
      refine ⟨fun h => ?_, fun h => ?_⟩
      · rw [show setParamAttempts ch name value true old (n + 1) ⟨st, c :: rest⟩
            = setParamAttempts ch name value true old n
              ⟨ch.write name value st, c :: rest⟩ from by
              simp [setParamAttempts, hf]] at h ⊢
        exact this.1 h
      · rw [show setParamAttempts ch name value true old (n + 1) ⟨st, c :: rest⟩
            = setParamAttempts ch name value true old n
              ⟨ch.write name value st, c :: rest⟩ from by
              simp [setParamAttempts, hf]] at h ⊢
        exact this.2 h

/-- Under the ideal transport the restore loop succeeds and folds the
recorded pairs over the store, left to right. -/
lemma restorePairs_ideal (ps : List (String × ℚ)) :
    ∀ s : SimState,
      restorePairs idealChan ps s
        = ({ s with
             store := ps.foldl (fun st p => updateStore st p.1 p.2) s.store },
           none) := by
  induction ps with
  | nil => intro s; simp [restorePairs]
  | cons p ps ih =>
    intro s
    obtain ⟨n, v⟩ := p
    rw [show restorePairs idealChan ((n, v) :: ps) s
        = restorePairs idealChan ps
          { s with store := updateStore s.store n v } from by
        simp [restorePairs, set_parameter_ideal_norecord]]
    rw [ih]
    simp

/-- Abort semantics of the restore loop: once a prefix of the pair
list ends in a raised exception, the pairs after it contribute
nothing — the loop's result is that of the truncated list. -/
lemma restorePairs_append_fail (ch : ParamChannel) (n : String) (v : ℚ)
    (e : PErr) (qs : List (String × ℚ)) :
    ∀ (ps : List (String × ℚ)) (s s' : SimState),
      restorePairs ch (ps ++ [(n, v)]) s = (s', some e) →
      restorePairs ch (ps ++ (n, v) :: qs) s = (s', some e) := by
  intro ps
  induction ps with
  | nil =>
    intro s s' hfail
    simp only [List.nil_append, restorePairs] at hfail ⊢
    rcases h : set_parameter ch n v false s with ⟨s1, err⟩
    rw [h] at hfail
    cases err with
    | none => simp [restorePairs] at hfail
    | some e1 => simpa using hfail
  | cons p ps ih =>
    intro s s' hfail
    obtain ⟨m, w⟩ := p
    simp only [List.cons_append, restorePairs] at hfail ⊢
    rcases h : set_parameter ch m w false s with ⟨s1, err⟩
    rw [h] at hfail
    cases err with
    | none => exact ih s1 s' hfail
    | some e1 => exact hfail

/-- Under the ideal transport a nonempty run of recording writes to
one name extends the top context with a block of pairs whose first
entry is `(name, initial store value)`. -/
lemma setSeq_ideal (X : String) :
    ∀ (vs : List ℚ) (st : Store) (c : Context) (rest : List Context),
      vs ≠ [] →
      ∃ (t2 : List (String × ℚ)) (st2 : Store),
        setSeq idealChan X vs ⟨st, c :: rest⟩
          = (⟨st2, ⟨c.parameters ++ ((X, st X) :: t2)⟩ :: rest⟩, none) := by
  intro vs
  induction vs with
  | nil => intro st c rest h; exact absurd rfl h
  | cons v vs ih =>
    intro st c rest _
    rw [show setSeq idealChan X (v :: vs) ⟨st, c :: rest⟩
        = setSeq idealChan X vs
          ⟨updateStore st X v, ⟨c.parameters ++ [(X, st X)]⟩ :: rest⟩ from by
        simp [setSeq, ideal_set_record]]
    cases vs with
    | nil =>
      refine ⟨[], updateStore st X v, ?_⟩
      simp [setSeq]
    | cons w ws =>
      obtain ⟨t2, st2, h2⟩ := ih (updateStore st X v)
        ⟨c.parameters ++ [(X, st X)]⟩ rest (by simp)
      refine ⟨(X, updateStore st X v X) :: t2, st2, ?_⟩
      rw [h2]
      simp

/-! ## C1: context_pop and restoration failures -/

/-- C1 (counterexample): `context_pop` is not best-effort.  Restoring
pair ("B", 20) fails (writes to B are dropped, so all nine read-backs
mismatch and `set_parameter` raises `ValueError`), and the exception
propagates at once: parameter A is left at 1, not restored to its
recorded previous value 10 — even though, as the last conjuncts show,
the skipped restore of ("A", 10) would have succeeded had it been
attempted. -/
theorem context_pop_not_best_effort_cex :
    (context_pop dropChan sAB).2 = some PErr.valueError ∧
    (context_pop dropChan sAB).1.store "A" = 1 ∧
    (context_pop dropChan sAB).1.store "A" ≠ 10 ∧
    (set_parameter dropChan "A" 10 false (context_pop dropChan sAB).1).2 = none ∧
    (set_parameter dropChan "A" 10 false (context_pop dropChan sAB).1).1.store "A"
      = 10 := by
  decide

/-- C1 (amended): when restoring the reversed pair list, the first
`set_parameter` that raises aborts the loop: the pairs recorded before
it (`qs`, still to be restored) are never attempted, and the exception
propagates immediately — `context_pop`'s result is exactly that of the
run truncated at the failing pair, whatever `qs` holds. -/
theorem context_pop_aborts_on_failure (ch : ParamChannel) (s s' : SimState)
    (dead : Context) (rest : List Context) (ps qs : List (String × ℚ))
    (n : String) (v : ℚ) (e : PErr)
    (hc : s.contexts = dead :: rest)
    (hrev : dead.parameters.reverse = ps ++ (n, v) :: qs)
    (hfail : restorePairs ch (ps ++ [(n, v)]) { s with contexts := rest }
      = (s', some e)) :
    context_pop ch s = (s', some e) := by
  have : context_pop ch s
      = restorePairs ch dead.parameters.reverse { s with contexts := rest } := by
    obtain ⟨st, ctxs⟩ := s
    simp only at hc
    subst hc
    rfl
  rw [this, hrev]
  exact restorePairs_append_fail ch n v e qs ps { s with contexts := rest } s' hfail

/-- C1 (witness): the amended abort behaviour at the concrete faulty
transport: popping `sAB` resolves to the truncated restore run (only
("B", 20) attempted) and raises its `ValueError`. -/
theorem context_pop_aborts_witness :
    context_pop dropChan sAB
      = ((restorePairs dropChan [("B", 20)] ⟨storeAB, []⟩).1,
         some PErr.valueError) := by
  have h2 : (restorePairs dropChan [("B", 20)] ⟨storeAB, []⟩).2
      = some PErr.valueError := by decide
  exact context_pop_aborts_on_failure dropChan sAB
    (restorePairs dropChan [("B", 20)] ⟨storeAB, []⟩).1
    ⟨[("A", 10), ("B", 20)]⟩ [] [] [("A", 10)] "B" 20 PErr.valueError
    rfl (by decide) (by rw [← h2]; rfl)

/-! ## C2: what a repeated set_parameter records -/

/-- C2 (counterexample): with recording on, a second successful
`set_parameter` call for the same name in the same context appends a
second pair: after `set_parameter("X", 5); set_parameter("X", 6)` the
context holds [("X", 0), ("X", 5)], not just the first-seen
[("X", 0)]. -/
theorem set_parameter_second_call_appends_cex :
    (setSeq idealChan "X" [5, 6] ⟨fun _ => 0, [⟨[]⟩]⟩).2 = none ∧
    (setSeq idealChan "X" [5, 6] ⟨fun _ => 0, [⟨[]⟩]⟩).1.contexts
      = [⟨[("X", 0), ("X", 5)]⟩] ∧
    (setSeq idealChan "X" [5, 6] ⟨fun _ => 0, [⟨[]⟩]⟩).1.contexts
      ≠ [⟨[("X", 0)]⟩] := by
  decide

/-- C2 (amended): every successful recording `set_parameter` appends
`(name, value read before this call)` to the current context — also
when the context already holds a pair for that name (hypothesis
`hmem`), so repeated writes append repeatedly; there is no first-seen
guard. -/
theorem set_parameter_appends_on_repeat (ch : ParamChannel) (name : String)
    (value w : ℚ) (st : Store) (c : Context) (rest : List Context)
    (_hmem : (name, w) ∈ c.parameters)
    (hsucc : (set_parameter ch name value true ⟨st, c :: rest⟩).2 = none) :
    (set_parameter ch name value true ⟨st, c :: rest⟩).1.contexts
      = ⟨c.parameters ++ [(name, ch.fetch st name)]⟩ :: rest ∧
    (⟨c.parameters ++ [(name, ch.fetch st name)]⟩ : Context) ≠ c := by
  constructor
  · exact (setParamAttempts_contexts ch name value (ch.fetch st name) 9
      st c rest).1 hsucc
  · intro h
    have := congrArg (fun ctx => ctx.parameters.length) h
    simp at this

/-- C2 (witness): the amended behaviour at a concrete input: a context
that already holds ("X", 0) receives a second pair for "X". -/
theorem set_parameter_appends_on_repeat_witness :
    (set_parameter idealChan "X" 6 true ⟨fun _ => 5, [⟨[("X", 0)]⟩]⟩).1.contexts
      = ⟨[("X", 0)] ++ [("X", idealChan.fetch (fun _ => 5) "X")]⟩ :: [] ∧
    (⟨[("X", 0)] ++ [("X", idealChan.fetch (fun _ => 5) "X")]⟩ : Context)
      ≠ ⟨[("X", 0)]⟩ :=
  set_parameter_appends_on_repeat idealChan "X" 6 0 (fun _ => 5)
    ⟨[("X", 0)]⟩ [] (by decide) (by decide)

/-! ## C3: push / repeated set / pop round-trip -/

/-- C3: round-trip.  For any parameter `X` with pre-push store value
`st X`, pushing a context, writing `X` one or more times (each write
succeeding, under the ideal transport), then popping, raises nothing
and leaves `X` at its pre-push value — the first-seen prior value, not
any intermediate one — and leaves the context stack as before the
push. -/
theorem context_roundtrip_first_seen (X : String) (vs : List ℚ) (st : Store)
    (ctxs : List Context) (hvs : vs ≠ []) :
    (setSeq idealChan X vs (context_push ⟨st, ctxs⟩)).2 = none ∧
    (context_pop idealChan (setSeq idealChan X vs (context_push ⟨st, ctxs⟩)).1).2
      = none ∧
    (context_pop idealChan
      (setSeq idealChan X vs (context_push ⟨st, ctxs⟩)).1).1.store X = st X ∧
    (context_pop idealChan
      (setSeq idealChan X vs (context_push ⟨st, ctxs⟩)).1).1.contexts = ctxs := by
  obtain ⟨t2, st2, h⟩ := setSeq_ideal X vs st ⟨[]⟩ ctxs hvs
  have hpush : context_push ⟨st, ctxs⟩ = (⟨st, ⟨[]⟩ :: ctxs⟩ : SimState) := rfl
  rw [hpush, h]
  simp only [List.nil_append]
  have hpop : context_pop idealChan (⟨st2, ⟨(X, st X) :: t2⟩ :: ctxs⟩ : SimState)
      = restorePairs idealChan (t2.reverse ++ [(X, st X)]) ⟨st2, ctxs⟩ := by
    rw [show context_pop idealChan (⟨st2, ⟨(X, st X) :: t2⟩ :: ctxs⟩ : SimState)
        = restorePairs idealChan ((X, st X) :: t2).reverse ⟨st2, ctxs⟩ from rfl]
    rw [List.reverse_cons]
  refine ⟨by trivial, ?_, ?_, ?_⟩
  · rw [hpop, restorePairs_ideal]
  · rw [hpop, restorePairs_ideal]
    show (t2.reverse ++ [(X, st X)]).foldl
      (fun st p => updateStore st p.1 p.2) st2 X = st X
    rw [List.foldl_append]
    exact updateStore_same _ X (st X)
  · rw [hpop, restorePairs_ideal]

/-- C3 (witness): writing X twice (7 then 8) inside a pushed context
and popping restores the pre-push value 42. -/
theorem context_roundtrip_witness :
    (setSeq idealChan "X" [7, 8] (context_push ⟨fun _ => 42, []⟩)).2 = none ∧
    (context_pop idealChan
      (setSeq idealChan "X" [7, 8] (context_push ⟨fun _ => 42, []⟩)).1).2 = none ∧
    (context_pop idealChan
      (setSeq idealChan "X" [7, 8]
        (context_push ⟨fun _ => 42, []⟩)).1).1.store "X"
      = (fun _ => (42 : ℚ)) "X" ∧
    (context_pop idealChan
      (setSeq idealChan "X" [7, 8]
        (context_push ⟨fun _ => 42, []⟩)).1).1.contexts = [] :=
  context_roundtrip_first_seen "X" [7, 8] (fun _ => 42) [] (by decide)

/-! ## C9: set_parameter read-back mismatch and the recorded value -/

/-- C9: the three guarantees of a recording `set_parameter` call.
(1) If all nine read-backs (each read after one more write) differ
from the written value, the call performs its nine writes and raises
`ValueError`; (2) whenever it raises, nothing was appended to the
context stack; (3) whenever it succeeds, the pair appended to the top
context is `(name, value fetched before the first write attempt)`. -/
theorem set_parameter_mismatch_and_record (ch : ParamChannel) (name : String)
    (value : ℚ) (st : Store) (c : Context) (rest : List Context) :
    ((∀ i, 1 ≤ i → i ≤ 9 →
        ch.fetch (iterWrite ch name value i st) name ≠ value) →
      set_parameter ch name value true ⟨st, c :: rest⟩
        = (⟨iterWrite ch name value 9 st, c :: rest⟩, some PErr.valueError)) ∧
    ((set_parameter ch name value true ⟨st, c :: rest⟩).2 ≠ none →
      (set_parameter ch name value true ⟨st, c :: rest⟩).2
          = some PErr.valueError ∧
      (set_parameter ch name value true ⟨st, c :: rest⟩).1.contexts
        = c :: rest) ∧
    ((set_parameter ch name value true ⟨st, c :: rest⟩).2 = none →
      (set_parameter ch name value true ⟨st, c :: rest⟩).1.contexts
        = ⟨c.parameters ++ [(name, ch.fetch st name)]⟩ :: rest) := by
  refine ⟨fun hmiss => ?_, fun h => ?_, fun h => ?_⟩
  · exact setParamAttempts_fail ch name value true (ch.fetch st name) 9
      ⟨st, c :: rest⟩ hmiss
  · exact (setParamAttempts_contexts ch name value (ch.fetch st name) 9
      st c rest).2 h
  · exact (setParamAttempts_contexts ch name value (ch.fetch st name) 9
      st c rest).1 h

/-! ## C10: the heading tolerance special case -/

/-- C10: a heading sample `h` matches target `t` with accuracy `a`
exactly when `|h - t| ≤ a`, or when both `t ≤ a` and `|h - 360| ≤ a`
(Python's `and` binding tighter than `or`).  The special case is
asymmetric, not a modulo-360 distance: target 359 with accuracy 5 is
not matched by heading 1, while target 1 is matched by heading 359. -/
theorem wait_heading_tolerance_shape :
    (∀ h t a : ℚ, headingMatch h t a = true ↔
      (|h - t| ≤ a ∨ (t ≤ a ∧ |h - 360| ≤ a))) ∧
    headingMatch 1 359 5 = false ∧
    headingMatch 359 1 5 = true := by
  refine ⟨fun h t a => ?_, by with_unfolding_all decide, by with_unfolding_all decide⟩
  simp [headingMatch, fabs_eq_abs]

/-! ## C7: the command acknowledgment loop -/

/-- While every ack read so far has a non-matching command id, the
`run_cmd` loop keeps reading and resolves nothing. -/
lemma runCommand_skip (acks : ℕ → ℕ × ℕ) (command want : ℕ) :
    ∀ (f i : ℕ), (∀ j, j < f → (acks (i + j)).1 ≠ command) →
      runCommand acks command want f i = none := by
  intro f
  induction f with
  | zero => intro i _; rfl
  | succ f ih =>
    intro i hne
    have h0 : (acks i).1 ≠ command := by simpa using hne 0 (Nat.succ_pos f)
    simp only [runCommand, if_neg h0]
    refine ih (i + 1) (fun j hj => ?_)
    have harith : i + 1 + j = i + (j + 1) := by omega
    rw [harith]
    exact hne (j + 1) (Nat.succ_lt_succ hj)

/-- Reading one non-matching ack just advances the loop. -/
lemma runCommand_step_ne (acks : ℕ → ℕ × ℕ) (command want f i : ℕ)
    (h : (acks i).1 ≠ command) :
    runCommand acks command want (f + 1) i
      = runCommand acks command want f (i + 1) := by
  simp [runCommand, if_neg h]

/-- The loop resolves at the first matching ack: success exactly when
its result equals the wanted result, `ValueError` otherwise. -/
lemma runCommand_resolve (acks : ℕ → ℕ × ℕ) (command want : ℕ) :
    ∀ (k i : ℕ), (acks (i + k)).1 = command →
      (∀ j, j < k → (acks (i + j)).1 ≠ command) →
      runCommand acks command want (k + 1) i
        = (if (acks (i + k)).2 = want then some true else some false) := by
  intro k
  induction k with
  | zero =>
    intro i hk _
    rw [Nat.add_zero] at hk
    rw [Nat.add_zero]
    simp only [runCommand, if_pos hk]
    by_cases hw : (acks i).2 = want <;> simp [hw]
  | succ k ih =>
    intro i hk hprev
    have h0 : (acks i).1 ≠ command := by simpa using hprev 0 (Nat.succ_pos k)
    rw [runCommand_step_ne acks command want (k + 1) i h0]
    have harith : i + 1 + k = i + (k + 1) := by omega
    have hk' : (acks (i + 1 + k)).1 = command := by rw [harith]; exact hk
    have hres := ih (i + 1) hk' (fun j hj => by
      have harith2 : i + 1 + j = i + (j + 1) := by omega
      rw [harith2]
      exact hprev (j + 1) (Nat.succ_lt_succ hj))
    rw [hres, harith]

/-- C7: `run_cmd` discards every ack whose command id differs from the
sent command (the loop is still reading after any number of them), and
resolves at the first matching ack — reading exactly the acks up to
and including it — succeeding iff the matching ack's result code
equals `want_result` and raising `ValueError` otherwise. -/
theorem run_cmd_first_matching_ack (acks : ℕ → ℕ × ℕ) (command want k : ℕ)
    (hk : (acks k).1 = command)
    (hprev : ∀ i, i < k → (acks i).1 ≠ command) :
    (∀ f, f ≤ k → runCommand acks command want f 0 = none) ∧
    runCommand acks command want (k + 1) 0
      = (if (acks k).2 = want then some true else some false) := by
  constructor
  · intro f hf
    refine runCommand_skip acks command want f 0 (fun j hj => ?_)
    rw [Nat.zero_add]
    exact hprev j (lt_of_lt_of_le hj hf)
  · have := runCommand_resolve acks command want k 0
      (by rw [Nat.zero_add]; exact hk)
      (fun j hj => by rw [Nat.zero_add]; exact hprev j hj)
    simpa using this

/-- C7 (witness): two non-matching acks (command 7) are discarded,
then the matching ack (command 5, result 0) resolves the wait with
success. -/
theorem run_cmd_first_matching_ack_witness :
    (∀ f, f ≤ 2 →
      runCommand (fun i => if i < 2 then ((7 : ℕ), (0 : ℕ)) else (5, 0))
        5 0 f 0 = none) ∧
    runCommand (fun i => if i < 2 then ((7 : ℕ), (0 : ℕ)) else (5, 0)) 5 0 3 0
      = (if ((fun i => if i < 2 then ((7 : ℕ), (0 : ℕ)) else (5, 0)) 2).2 = 0
          then some true else some false) :=
  run_cmd_first_matching_ack (fun i => if i < 2 then ((7 : ℕ), (0 : ℕ)) else (5, 0))
    5 0 2 (by decide) (by decide)

/-! ## Helper lemmas: the sustained wait loop -/

/-- One unfolding of the sustained wait loop. -/
lemma sustainRun_succ {β α : Type} (time : ℕ → ℚ) (samp : ℕ → β)
    (matchF : β → Bool) (acc : β → α → α) (zero : α)
    (tstart maintain timeout : ℚ) (fuel k : ℕ) (ds : Option ℚ)
    (mean : α) (counter : ℚ) :
    sustainRun time samp matchF acc zero tstart maintain timeout
      (fuel + 1) k ds mean counter
      = if time k < tstart + timeout then
          if matchF (samp k) then
            if time k - ds.getD (time k) > maintain then some WaitRes.achieved
            else sustainRun time samp matchF acc zero tstart maintain timeout
              fuel (k + 1) (some (ds.getD (time k))) (acc (samp k) mean)
              (counter + 1)
          else sustainRun time samp matchF acc zero tstart maintain timeout
            fuel (k + 1) none zero 0
        else some WaitRes.timedOut := rfl

/-- If every consecutive in-tolerance run observed before the deadline
spans at most `maintain` simulated seconds, the loop never returns
`achieved`.  The quantified invariant: a recorded `duration_start` is
the clock reading of some earlier iteration since which every sample
matched. -/
lemma sustain_no_achieve {β α : Type} (time : ℕ → ℚ) (samp : ℕ → β)
    (matchF : β → Bool) (acc : β → α → α) (zero : α)
    (tstart maintain timeout : ℚ)
    (hruns : ∀ j k, j ≤ k → time k < tstart + timeout →
      (∀ i, j ≤ i → i ≤ k → matchF (samp i) = true) →
      time k - time j ≤ maintain) :
    ∀ (fuel k : ℕ) (ds : Option ℚ) (mean : α) (counter : ℚ),
      (∀ d, ds = some d → ∃ j, j ≤ k ∧ d = time j ∧
        ∀ i, j ≤ i → i < k → matchF (samp i) = true) →
      sustainRun time samp matchF acc zero tstart maintain timeout
        fuel k ds mean counter ≠ some WaitRes.achieved := by
  intro fuel
  induction fuel with
  | zero => intro k ds mean counter _; simp [sustainRun]
  | succ fuel ih =>
    intro k ds mean counter hinv
    rw [sustainRun_succ]
    by_cases hg : time k < tstart + timeout
    · rw [if_pos hg]
      by_cases hm : matchF (samp k) = true
      · rw [if_pos hm]
        cases ds with
        | none =>
          simp only [Option.getD_none]
          have hle : time k - time k ≤ maintain :=
            hruns k k le_rfl hg (fun i h1 h2 => by
              have hik : i = k := le_antisymm h2 h1
              rw [hik]; exact hm)
          rw [if_neg (not_lt.mpr hle)]
          refine ih (k + 1) (some (time k)) _ _ (fun d hd => ?_)
          obtain rfl : time k = d := Option.some.inj hd
          exact ⟨k, Nat.le_succ k, rfl, fun i h1 h2 => by
            have hik : i = k := by omega
            rw [hik]; exact hm⟩
        | some d0 =>
          simp only [Option.getD_some]
          obtain ⟨j, hjk, hdj, hmt⟩ := hinv d0 rfl
          have hle : time k - time j ≤ maintain :=
            hruns j k hjk hg (fun i h1 h2 => by
              rcases Nat.lt_or_ge i k with hik | hik
              · exact hmt i h1 hik
              · have hik2 : i = k := le_antisymm h2 hik
                rw [hik2]; exact hm)
          rw [hdj, if_neg (not_lt.mpr hle)]
          refine ih (k + 1) (some (time j)) _ _ (fun d hd => ?_)
          obtain rfl : time j = d := Option.some.inj hd
          exact ⟨j, le_trans hjk (Nat.le_succ k), rfl, fun i h1 h2 => by
            rcases Nat.lt_or_ge i k with hik | hik
            · exact hmt i h1 hik
            · have hik2 : i = k := by omega
              rw [hik2]; exact hm⟩
      · rw [if_neg hm]
        exact ih (k + 1) none zero 0 (fun d hd => by simp at hd)
    · rw [if_neg hg]
      simp

/-- Under the same run-length bound, once some iteration `K`'s clock
reading is at or past the deadline, the loop (started at or before
`K`, with a `duration_start` satisfying the run invariant) terminates
with the timeout failure. -/
lemma sustain_timeout {β α : Type} (time : ℕ → ℚ) (samp : ℕ → β)
    (matchF : β → Bool) (acc : β → α → α) (zero : α)
    (tstart maintain timeout : ℚ)
    (hruns : ∀ j k, j ≤ k → time k < tstart + timeout →
      (∀ i, j ≤ i → i ≤ k → matchF (samp i) = true) →
      time k - time j ≤ maintain)
    (K : ℕ) (hK : ¬ time K < tstart + timeout) :
    ∀ (n k : ℕ) (ds : Option ℚ) (mean : α) (counter : ℚ),
      k ≤ K → K ≤ k + n →
      (∀ d, ds = some d → ∃ j, j ≤ k ∧ d = time j ∧
        ∀ i, j ≤ i → i < k → matchF (samp i) = true) →
      ∃ fuel, sustainRun time samp matchF acc zero tstart maintain timeout
        fuel k ds mean counter = some WaitRes.timedOut := by
  intro n
  induction n with
  | zero =>
    intro k ds mean counter hkK hKk _
    have hk : k = K := by omega
    subst hk
    exact ⟨1, by rw [sustainRun_succ, if_neg hK]⟩
  | succ n ih =>
    intro k ds mean counter hkK hKk hinv
    by_cases hg : time k < tstart + timeout
    · have hkK2 : k < K := lt_of_le_of_ne hkK (fun h => hK (h ▸ hg))
      by_cases hm : matchF (samp k) = true
      · cases ds with
        | none =>
          have hle : time k - time k ≤ maintain :=
            hruns k k le_rfl hg (fun i h1 h2 => by
              have hik : i = k := le_antisymm h2 h1
              rw [hik]; exact hm)
          obtain ⟨fuel, hf⟩ := ih (k + 1) (some (time k))
            (acc (samp k) mean) (counter + 1) hkK2 (by omega)
            (fun d hd => by
              obtain rfl : time k = d := Option.some.inj hd
              exact ⟨k, Nat.le_succ k, rfl, fun i h1 h2 => by
                have hik : i = k := by omega
                rw [hik]; exact hm⟩)
          exact ⟨fuel + 1, by
            rw [sustainRun_succ, if_pos hg, if_pos hm]
            simp only [Option.getD_none]
            rw [if_neg (not_lt.mpr hle)]
            exact hf⟩
        | some d0 =>
          obtain ⟨j, hjk, hdj, hmt⟩ := hinv d0 rfl
          have hle : time k - time j ≤ maintain :=
            hruns j k hjk hg (fun i h1 h2 => by
              rcases Nat.lt_or_ge i k with hik | hik
              · exact hmt i h1 hik
              · have hik2 : i = k := le_antisymm h2 hik
                rw [hik2]; exact hm)
          obtain ⟨fuel, hf⟩ := ih (k + 1) (some (time j))
            (acc (samp k) mean) (counter + 1) hkK2 (by omega)
            (fun d hd => by
              obtain rfl : time j = d := Option.some.inj hd
              exact ⟨j, le_trans hjk (Nat.le_succ k), rfl, fun i h1 h2 => by
                rcases Nat.lt_or_ge i k with hik | hik
                · exact hmt i h1 hik
                · have hik2 : i = k := by omega
                  rw [hik2]; exact hm⟩)
          exact ⟨fuel + 1, by
            rw [sustainRun_succ, if_pos hg, if_pos hm]
            simp only [Option.getD_some]
            rw [hdj, if_neg (not_lt.mpr hle)]
            exact hf⟩
      · obtain ⟨fuel, hf⟩ := ih (k + 1) none zero 0 hkK2 (by omega)
          (fun d hd => by simp at hd)
        exact ⟨fuel + 1, by
          rw [sustainRun_succ, if_pos hg, if_neg hm]
          exact hf⟩
    · exact ⟨1, by rw [sustainRun_succ, if_neg hg]⟩

/-- Completeness of the sustain check, with the strict inequality the
code actually uses: if samples `j..k` are all in tolerance, every
iteration up to `k` is before the deadline, the clock is monotone, and
the run spans strictly more than `maintain` seconds, then the loop
(started at or before `k`, at or before the run, with a consistent
`duration_start`) returns `achieved` for some fuel. -/
lemma sustain_achieves {β α : Type} (time : ℕ → ℚ) (samp : ℕ → β)
    (matchF : β → Bool) (acc : β → α → α) (zero : α)
    (tstart maintain timeout : ℚ)
    (hmono : ∀ i1 i2 : ℕ, i1 ≤ i2 → time i1 ≤ time i2)
    (j k : ℕ) (hjk : j ≤ k)
    (hguard : ∀ i, i ≤ k → time i < tstart + timeout)
    (hmatch : ∀ i, j ≤ i → i ≤ k → matchF (samp i) = true)
    (hgap : maintain < time k - time j) :
    ∀ (n k0 : ℕ) (ds : Option ℚ) (mean : α) (counter : ℚ),
      k0 ≤ k → k ≤ k0 + n →
      ((k0 ≤ j ∧ (∀ d, ds = some d → ∃ j0, j0 ≤ k0 ∧ d = time j0)) ∨
        (j < k0 ∧ ∃ d, ds = some d ∧ d ≤ time j)) →
      ∃ fuel, sustainRun time samp matchF acc zero tstart maintain timeout
        fuel k0 ds mean counter = some WaitRes.achieved := by
  have hnow : ∀ (ds : Option ℚ) (mean : α) (counter : ℚ),
      ((k ≤ j ∧ (∀ d, ds = some d → ∃ j0, j0 ≤ k ∧ d = time j0)) ∨
        (j < k ∧ ∃ d, ds = some d ∧ d ≤ time j)) →
      ∃ fuel, sustainRun time samp matchF acc zero tstart maintain timeout
        fuel k ds mean counter = some WaitRes.achieved := by
    intro ds mean counter hinv
    have hg : time k < tstart + timeout := hguard k le_rfl
    have hm : matchF (samp k) = true := hmatch k hjk le_rfl
    have hd : maintain < time k - ds.getD (time k) := by
      rcases hinv with ⟨hkj, hsome⟩ | ⟨hjlt, d, hds, hdle⟩
      · have hjeq : j = k := le_antisymm hjk hkj
        cases ds with
        | none =>
          simp only [Option.getD_none]
          rw [hjeq] at hgap
          exact hgap
        | some d0 =>
          obtain ⟨j0, hj0, hdj0⟩ := hsome d0 rfl
          simp only [Option.getD_some]
          have hdle : d0 ≤ time j := by
            rw [hdj0, ← hjeq] at *
            exact hmono j0 j (by omega)
          exact lt_of_lt_of_le hgap (by linarith)
      · rcases hds with rfl
        simp only [Option.getD_some]
        exact lt_of_lt_of_le hgap (by linarith)
    exact ⟨1, by rw [sustainRun_succ, if_pos hg, if_pos hm, if_pos hd]⟩
  intro n
  induction n with
  | zero =>
    intro k0 ds mean counter hk0k hkk0
    have hk0 : k0 = k := by omega
    subst hk0
    exact hnow ds mean counter
  | succ n ih =>
    intro k0 ds mean counter hk0k hkk0 hinv
    rcases eq_or_lt_of_le hk0k with hk0 | hk0lt
    · subst hk0
      exact hnow ds mean counter hinv
    · have hg : time k0 < tstart + timeout := hguard k0 (le_of_lt hk0lt)
      by_cases hm : matchF (samp k0) = true
      · by_cases hach : time k0 - ds.getD (time k0) > maintain
        · exact ⟨1, by rw [sustainRun_succ, if_pos hg, if_pos hm, if_pos hach]⟩
        · have hinv2 :
              ((k0 + 1 ≤ j ∧ (∀ d, (some (ds.getD (time k0)) : Option ℚ)
                  = some d → ∃ j0, j0 ≤ k0 + 1 ∧ d = time j0)) ∨
                (j < k0 + 1 ∧ ∃ d, (some (ds.getD (time k0)) : Option ℚ)
                  = some d ∧ d ≤ time j)) := by
            rcases hinv with ⟨hk0j, hsome⟩ | ⟨hjlt, d, hds, hdle⟩
            · rcases eq_or_lt_of_le hk0j with hk0j2 | hk0j2
              · -- k0 = j: the run has started; record d ≤ time j
                refine Or.inr ⟨by omega, ds.getD (time k0), rfl, ?_⟩
                cases ds with
                | none =>
                  simp only [Option.getD_none]
                  rw [hk0j2]
                | some d0 =>
                  obtain ⟨j0, hj0, hdj0⟩ := hsome d0 rfl
                  simp only [Option.getD_some]
                  rw [hdj0, ← hk0j2]
                  exact hmono j0 k0 hj0
              · -- k0 < j: still before the run
                refine Or.inl ⟨by omega, fun d hd => ?_⟩
                cases ds with
                | none =>
                  simp only [Option.getD_none] at hd
                  exact ⟨k0, Nat.le_succ k0, (Option.some.inj hd).symm⟩
                | some d0 =>
                  obtain ⟨j0, hj0, hdj0⟩ := hsome d0 rfl
                  simp only [Option.getD_some] at hd
                  exact ⟨j0, by omega, by rw [← Option.some.inj hd, hdj0]⟩
            · rcases hds with rfl
              exact Or.inr ⟨by omega, d, by simp, hdle⟩
          obtain ⟨fuel, hf⟩ := ih (k0 + 1) (some (ds.getD (time k0)))
            (acc (samp k0) mean) (counter + 1) (by omega) (by omega) hinv2
          exact ⟨fuel + 1, by
            rw [sustainRun_succ, if_pos hg, if_pos hm, if_neg hach]
            exact hf⟩
      · have hk0j : k0 < j := by
          rcases Nat.lt_or_ge k0 j with h | h
          · exact h
          · exact absurd (hmatch k0 h (le_of_lt hk0lt)) hm
        obtain ⟨fuel, hf⟩ := ih (k0 + 1) none zero 0 (by omega) (by omega)
          (Or.inl ⟨by omega, fun d hd => by simp at hd⟩)
        exact ⟨fuel + 1, by
          rw [sustainRun_succ, if_pos hg, if_neg hm]
          exact hf⟩

/-! ## C4: reset-on-break - short in-tolerance runs never achieve -/

/-- C4: for each sustained wait (`wait_heading`, `wait_yaw_speed`,
`wait_speed_vector`) with minimum sustain `S > 0`, if every
consecutive in-tolerance run observed before the deadline spans less
than `S` simulated seconds, the wait never returns `achieved` and,
once the clock passes the deadline at some iteration, raises the
timeout failure — a single out-of-tolerance sample resets the sustain
window. -/
theorem sustained_wait_short_runs_timeout
    (timeH sampH : ℕ → ℚ) (hdg accH mH toH : ℚ)
    (timeY sampY : ℕ → ℚ) (tY accY mY toY : ℚ)
    (timeV : ℕ → ℚ) (sampV : ℕ → ℚ × ℚ × ℚ) (tvx tvy tvz accV mV toV : ℚ)
    (_hSH : 0 < mH) (_hSY : 0 < mY) (_hSV : 0 < mV)
    (hrunsH : ∀ j k, j ≤ k → timeH k < timeH 0 + toH →
      (∀ i, j ≤ i → i ≤ k → headingMatch (sampH i) hdg accH = true) →
      timeH k - timeH j < mH)
    (hrunsY : ∀ j k, j ≤ k → timeY k < timeY 0 + toY →
      (∀ i, j ≤ i → i ≤ k → fabs (sampY i - tY) ≤ accY) →
      timeY k - timeY j < mY)
    (hrunsV : ∀ j k, j ≤ k → timeV k < timeV 0 + toV →
      (∀ i, j ≤ i → i ≤ k → fabs ((sampV i).1 - tvx) ≤ accV ∧
        fabs ((sampV i).2.1 - tvy) ≤ accV ∧ fabs ((sampV i).2.2 - tvz) ≤ accV) →
      timeV k - timeV j < mV)
    (hdlH : ∃ K, 1 ≤ K ∧ ¬ timeH K < timeH 0 + toH)
    (hdlY : ∃ K, 1 ≤ K ∧ ¬ timeY K < timeY 0 + toY)
    (hdlV : ∃ K, 1 ≤ K ∧ ¬ timeV K < timeV 0 + toV) :
    ((∀ fuel, wait_heading timeH sampH hdg accH mH toH fuel
        ≠ some WaitRes.achieved) ∧
      ∃ fuel, wait_heading timeH sampH hdg accH mH toH fuel
        = some WaitRes.timedOut) ∧
    ((∀ fuel, wait_yaw_speed timeY sampY tY accY mY toY fuel
        ≠ some WaitRes.achieved) ∧
      ∃ fuel, wait_yaw_speed timeY sampY tY accY mY toY fuel
        = some WaitRes.timedOut) ∧
    ((∀ fuel, wait_speed_vector timeV sampV tvx tvy tvz accV mV toV fuel
        ≠ some WaitRes.achieved) ∧
      ∃ fuel, wait_speed_vector timeV sampV tvx tvy tvz accV mV toV fuel
        = some WaitRes.timedOut) := by
  have hrunsH2 : ∀ j k, j ≤ k → timeH k < timeH 0 + toH →
      (∀ i, j ≤ i → i ≤ k →
        (fun h => headingMatch h hdg accH) (sampH i) = true) →
      timeH k - timeH j ≤ mH :=
    fun j k hjk hg hmm => le_of_lt (hrunsH j k hjk hg hmm)
  have hrunsY2 : ∀ j k, j ≤ k → timeY k < timeY 0 + toY →
      (∀ i, j ≤ i → i ≤ k →
        (fun r => decide (fabs (r - tY) ≤ accY)) (sampY i) = true) →
      timeY k - timeY j ≤ mY :=
    fun j k hjk hg hmm => le_of_lt (hrunsY j k hjk hg (fun i h1 h2 => by
      simpa using hmm i h1 h2))
  have hrunsV2 : ∀ j k, j ≤ k → timeV k < timeV 0 + toV →
      (∀ i, j ≤ i → i ≤ k →
        (fun v : ℚ × ℚ × ℚ => decide (fabs (v.1 - tvx) ≤ accV) &&
          (decide (fabs (v.2.1 - tvy) ≤ accV) &&
            decide (fabs (v.2.2 - tvz) ≤ accV))) (sampV i) = true) →
      timeV k - timeV j ≤ mV :=
    fun j k hjk hg hmm => le_of_lt (hrunsV j k hjk hg (fun i h1 h2 => by
      simpa [Bool.and_eq_true, decide_eq_true_eq] using hmm i h1 h2))
  refine ⟨⟨fun fuel => ?_, ?_⟩, ⟨fun fuel => ?_, ?_⟩, ⟨fun fuel => ?_, ?_⟩⟩
  · exact sustain_no_achieve timeH sampH (fun h => headingMatch h hdg accH)
      (fun h m => m + h) 0 (timeH 0) mH toH hrunsH2 fuel 1 none 0 0
      (fun d hd => by simp at hd)
  · obtain ⟨K, hK1, hKg⟩ := hdlH
    exact sustain_timeout timeH sampH (fun h => headingMatch h hdg accH)
      (fun h m => m + h) 0 (timeH 0) mH toH hrunsH2 K hKg K 1 none 0 0
      hK1 (by omega) (fun d hd => by simp at hd)
  · exact sustain_no_achieve timeY sampY
      (fun r => decide (fabs (r - tY) ≤ accY)) (fun r m => m + r) 0
      (timeY 0) mY toY hrunsY2 fuel 1 none 0 0 (fun d hd => by simp at hd)
  · obtain ⟨K, hK1, hKg⟩ := hdlY
    exact sustain_timeout timeY sampY
      (fun r => decide (fabs (r - tY) ≤ accY)) (fun r m => m + r) 0
      (timeY 0) mY toY hrunsY2 K hKg K 1 none 0 0 hK1 (by omega)
      (fun d hd => by simp at hd)
  · exact sustain_no_achieve timeV sampV
      (fun v : ℚ × ℚ × ℚ => decide (fabs (v.1 - tvx) ≤ accV) &&
        (decide (fabs (v.2.1 - tvy) ≤ accV) &&
          decide (fabs (v.2.2 - tvz) ≤ accV)))
      (fun v m => (m.1 + v.1, m.2.1 + v.2.1, m.2.2 + v.2.2))
      ((0 : ℚ), (0 : ℚ), (0 : ℚ)) (timeV 0) mV toV hrunsV2 fuel 1 none 0 0
      (fun d hd => by simp at hd)
  · obtain ⟨K, hK1, hKg⟩ := hdlV
    exact sustain_timeout timeV sampV
      (fun v : ℚ × ℚ × ℚ => decide (fabs (v.1 - tvx) ≤ accV) &&
        (decide (fabs (v.2.1 - tvy) ≤ accV) &&
          decide (fabs (v.2.2 - tvz) ≤ accV)))
      (fun v m => (m.1 + v.1, m.2.1 + v.2.1, m.2.2 + v.2.2))
      ((0 : ℚ), (0 : ℚ), (0 : ℚ)) (timeV 0) mV toV hrunsV2 K hKg K 1 none 0 0
      hK1 (by omega) (fun d hd => by simp at hd)

/-- C4 (witness): with every sample out of tolerance (so every run is
trivially shorter than the sustain), each of the three waits times out
at clock stream `k` and never achieves. -/
theorem sustained_wait_short_runs_timeout_witness :
    ((∀ fuel, wait_heading (fun k => (k : ℚ)) (fun _ => 100) 10 5 3 30 fuel
        ≠ some WaitRes.achieved) ∧
      ∃ fuel, wait_heading (fun k => (k : ℚ)) (fun _ => 100) 10 5 3 30 fuel
        = some WaitRes.timedOut) ∧
    ((∀ fuel, wait_yaw_speed (fun k => (k : ℚ)) (fun _ => 100) 0 1 3 30 fuel
        ≠ some WaitRes.achieved) ∧
      ∃ fuel, wait_yaw_speed (fun k => (k : ℚ)) (fun _ => 100) 0 1 3 30 fuel
        = some WaitRes.timedOut) ∧
    ((∀ fuel, wait_speed_vector (fun k => (k : ℚ))
        (fun _ => ((100 : ℚ), (100 : ℚ), (100 : ℚ))) 0 0 0 1 3 30 fuel
        ≠ some WaitRes.achieved) ∧
      ∃ fuel, wait_speed_vector (fun k => (k : ℚ))
        (fun _ => ((100 : ℚ), (100 : ℚ), (100 : ℚ))) 0 0 0 1 3 30 fuel
        = some WaitRes.timedOut) :=
  sustained_wait_short_runs_timeout
    (fun k => (k : ℚ)) (fun _ => 100) 10 5 3 30
    (fun k => (k : ℚ)) (fun _ => 100) 0 1 3 30
    (fun k => (k : ℚ)) (fun _ => ((100 : ℚ), (100 : ℚ), (100 : ℚ)))
    0 0 0 1 3 30
    (by norm_num) (by norm_num) (by norm_num)
    (fun j k hjk hg hmm => absurd (hmm j le_rfl hjk)
      (show ¬ headingMatch 100 10 5 = true by with_unfolding_all decide))
    (fun j k hjk hg hmm => absurd (hmm j le_rfl hjk)
      (show ¬ fabs ((100 : ℚ) - 0) ≤ 1 by with_unfolding_all decide))
    (fun j k hjk hg hmm => absurd (hmm j le_rfl hjk).1
      (show ¬ fabs ((100 : ℚ) - 0) ≤ 1 by with_unfolding_all decide))
    ⟨30, by norm_num, by norm_num⟩
    ⟨30, by norm_num, by norm_num⟩
    ⟨30, by norm_num, by norm_num⟩

/-! ## C5: the sustain comparison is strict -/

/-- C5 (counterexample): an in-tolerance run lasting exactly the
sustain duration does not suffice.  Clock `k`, samples in tolerance
exactly at iterations 1..6 (a run spanning exactly 5 = sustain
seconds, so elapsed-since-sustainStart reaches 5 ≥ 5 at iteration 6),
then out of tolerance: `wait_yaw_speed` never returns `achieved`
(the code demands elapsed strictly greater than the sustain) and
raises the timeout failure once the clock passes the deadline. -/
theorem sustained_wait_exact_sustain_cex :
    (∀ fuel, wait_yaw_speed (fun k => (k : ℚ))
        (fun k => if 1 ≤ k ∧ k ≤ 6 then 0 else 100) 0 1 5 30 fuel
        ≠ some WaitRes.achieved) ∧
    ∃ fuel, wait_yaw_speed (fun k => (k : ℚ))
        (fun k => if 1 ≤ k ∧ k ≤ 6 then 0 else 100) 0 1 5 30 fuel
        = some WaitRes.timedOut := by
  have hbound : ∀ i : ℕ,
      (fun r => decide (fabs (r - 0) ≤ 1))
        ((fun k => if 1 ≤ k ∧ k ≤ 6 then (0 : ℚ) else 100) i) = true →
      1 ≤ i ∧ i ≤ 6 := by
    intro i hi
    by_cases hc : 1 ≤ i ∧ i ≤ 6
    · exact hc
    · simp only [if_neg hc] at hi
      exact absurd hi (show ¬ decide (fabs ((100 : ℚ) - 0) ≤ 1) = true by
        with_unfolding_all decide)
  have hruns : ∀ j k : ℕ, j ≤ k →
      (fun k => (k : ℚ)) k < (fun k => (k : ℚ)) 0 + 30 →
      (∀ i : ℕ, j ≤ i → i ≤ k →
        (fun r => decide (fabs (r - 0) ≤ 1))
          ((fun k => if 1 ≤ k ∧ k ≤ 6 then (0 : ℚ) else 100) i) = true) →
      (fun k => (k : ℚ)) k - (fun k => (k : ℚ)) j ≤ 5 := by
    intro j k hjk hg hmm
    have hj := hbound j (hmm j le_rfl hjk)
    have hk := hbound k (hmm k hjk le_rfl)
    have hk6 : (k : ℚ) ≤ 6 := by exact_mod_cast hk.2
    have hj1 : (1 : ℚ) ≤ (j : ℚ) := by exact_mod_cast hj.1
    simp only
    linarith
  constructor
  · intro fuel
    exact sustain_no_achieve (fun k => (k : ℚ))
      (fun k => if 1 ≤ k ∧ k ≤ 6 then (0 : ℚ) else 100)
      (fun r => decide (fabs (r - 0) ≤ 1)) (fun r m => m + r) 0
      ((fun k => (k : ℚ)) 0) 5 30 hruns fuel 1 none 0 0
      (fun d hd => by simp at hd)
  · exact sustain_timeout (fun k => (k : ℚ))
      (fun k => if 1 ≤ k ∧ k ≤ 6 then (0 : ℚ) else 100)
      (fun r => decide (fabs (r - 0) ≤ 1)) (fun r m => m + r) 0
      ((fun k => (k : ℚ)) 0) 5 30 hruns 30 (by norm_num) 30 1 none 0 0
      (by norm_num) (by omega) (fun d hd => by simp at hd)

/-- C5 (amended): for each sustained wait, once a consecutive
in-tolerance run has started, the wait returns `achieved` as soon as
the current clock minus the sustain start exceeds the minimum sustain
STRICTLY (`>`, not `≥`): a run `j..k` before the deadline with
`time k - time j > maintain` (clock monotone) guarantees `achieved`. -/
theorem sustained_wait_achieves_strictly
    (timeH sampH : ℕ → ℚ) (hdg accH mH toH : ℚ)
    (timeY sampY : ℕ → ℚ) (tY accY mY toY : ℚ)
    (timeV : ℕ → ℚ) (sampV : ℕ → ℚ × ℚ × ℚ) (tvx tvy tvz accV mV toV : ℚ)
    (hmonoH : ∀ i1 i2 : ℕ, i1 ≤ i2 → timeH i1 ≤ timeH i2)
    (hmonoY : ∀ i1 i2 : ℕ, i1 ≤ i2 → timeY i1 ≤ timeY i2)
    (hmonoV : ∀ i1 i2 : ℕ, i1 ≤ i2 → timeV i1 ≤ timeV i2)
    (jH kH : ℕ) (hjH : 1 ≤ jH) (hjkH : jH ≤ kH)
    (hguardH : ∀ i, i ≤ kH → timeH i < timeH 0 + toH)
    (hmatchH : ∀ i, jH ≤ i → i ≤ kH → headingMatch (sampH i) hdg accH = true)
    (hgapH : mH < timeH kH - timeH jH)
    (jY kY : ℕ) (hjY : 1 ≤ jY) (hjkY : jY ≤ kY)
    (hguardY : ∀ i, i ≤ kY → timeY i < timeY 0 + toY)
    (hmatchY : ∀ i, jY ≤ i → i ≤ kY → fabs (sampY i - tY) ≤ accY)
    (hgapY : mY < timeY kY - timeY jY)
    (jV kV : ℕ) (hjV : 1 ≤ jV) (hjkV : jV ≤ kV)
    (hguardV : ∀ i, i ≤ kV → timeV i < timeV 0 + toV)
    (hmatchV : ∀ i, jV ≤ i → i ≤ kV → fabs ((sampV i).1 - tvx) ≤ accV ∧
      fabs ((sampV i).2.1 - tvy) ≤ accV ∧ fabs ((sampV i).2.2 - tvz) ≤ accV)
    (hgapV : mV < timeV kV - timeV jV) :
    (∃ fuel, wait_heading timeH sampH hdg accH mH toH fuel
      = some WaitRes.achieved) ∧
    (∃ fuel, wait_yaw_speed timeY sampY tY accY mY toY fuel
      = some WaitRes.achieved) ∧
    (∃ fuel, wait_speed_vector timeV sampV tvx tvy tvz accV mV toV fuel
      = some WaitRes.achieved) := by
  refine ⟨?_, ?_, ?_⟩
  · exact sustain_achieves timeH sampH (fun h => headingMatch h hdg accH)
      (fun h m => m + h) 0 (timeH 0) mH toH hmonoH jH kH hjkH hguardH
      hmatchH hgapH kH 1 none 0 0 (by omega) (by omega)
      (Or.inl ⟨hjH, fun d hd => by simp at hd⟩)
  · exact sustain_achieves timeY sampY
      (fun r => decide (fabs (r - tY) ≤ accY)) (fun r m => m + r) 0
      (timeY 0) mY toY hmonoY jY kY hjkY hguardY
      (fun i h1 h2 => by simpa using hmatchY i h1 h2) hgapY kY 1 none 0 0
      (by omega) (by omega) (Or.inl ⟨hjY, fun d hd => by simp at hd⟩)
  · exact sustain_achieves timeV sampV
      (fun v : ℚ × ℚ × ℚ => decide (fabs (v.1 - tvx) ≤ accV) &&
        (decide (fabs (v.2.1 - tvy) ≤ accV) &&
          decide (fabs (v.2.2 - tvz) ≤ accV)))
      (fun v m => (m.1 + v.1, m.2.1 + v.2.1, m.2.2 + v.2.2))
      ((0 : ℚ), (0 : ℚ), (0 : ℚ)) (timeV 0) mV toV hmonoV jV kV hjkV hguardV
      (fun i h1 h2 => by
        simpa [Bool.and_eq_true, decide_eq_true_eq] using hmatchV i h1 h2)
      hgapV kV 1 none 0 0 (by omega) (by omega)
      (Or.inl ⟨hjV, fun d hd => by simp at hd⟩)

/-- C5 (witness): with constantly in-tolerance samples and clock `k`,
each wait achieves once elapsed time exceeds the 5-second sustain
strictly (run 1..7 spans 6 > 5 seconds). -/
theorem sustained_wait_achieves_strictly_witness :
    (∃ fuel, wait_heading (fun k => (k : ℚ)) (fun _ => 10) 10 5 5 30 fuel
      = some WaitRes.achieved) ∧
    (∃ fuel, wait_yaw_speed (fun k => (k : ℚ)) (fun _ => 0) 0 1 5 30 fuel
      = some WaitRes.achieved) ∧
    (∃ fuel, wait_speed_vector (fun k => (k : ℚ))
      (fun _ => ((0 : ℚ), (0 : ℚ), (0 : ℚ))) 0 0 0 1 5 30 fuel
      = some WaitRes.achieved) :=
  sustained_wait_achieves_strictly
    (fun k => (k : ℚ)) (fun _ => 10) 10 5 5 30
    (fun k => (k : ℚ)) (fun _ => 0) 0 1 5 30
    (fun k => (k : ℚ)) (fun _ => ((0 : ℚ), (0 : ℚ), (0 : ℚ))) 0 0 0 1 5 30
    (fun i1 i2 h => by
      show (i1 : ℚ) ≤ (i2 : ℚ)
      exact_mod_cast h)
    (fun i1 i2 h => by
      show (i1 : ℚ) ≤ (i2 : ℚ)
      exact_mod_cast h)
    (fun i1 i2 h => by
      show (i1 : ℚ) ≤ (i2 : ℚ)
      exact_mod_cast h)
    1 7 le_rfl (by omega)
    (fun i hi => by
      have h7 : (i : ℚ) ≤ 7 := by exact_mod_cast hi
      show (i : ℚ) < ((0 : ℕ) : ℚ) + 30
      push_cast
      linarith)
    (fun i h1 h2 => show headingMatch 10 10 5 = true by
      with_unfolding_all decide)
    (by norm_num)
    1 7 le_rfl (by omega)
    (fun i hi => by
      have h7 : (i : ℚ) ≤ 7 := by exact_mod_cast hi
      show (i : ℚ) < ((0 : ℕ) : ℚ) + 30
      push_cast
      linarith)
    (fun i h1 h2 => show fabs ((0 : ℚ) - 0) ≤ 1 by with_unfolding_all decide)
    (by norm_num)
    1 7 le_rfl (by omega)
    (fun i hi => by
      have h7 : (i : ℚ) ≤ 7 := by exact_mod_cast hi
      show (i : ℚ) < ((0 : ℕ) : ℚ) + 30
      push_cast
      linarith)
    (fun i h1 h2 => show fabs ((0 : ℚ) - 0) ≤ 1 ∧ fabs ((0 : ℚ) - 0) ≤ 1 ∧
      fabs ((0 : ℚ) - 0) ≤ 1 by
      refine ⟨?_, ?_, ?_⟩ <;> with_unfolding_all decide)
    (by norm_num)

/-! ## C6: overshoot fast-fail - wait_distance only -/

/-- One unfolding of the `wait_distance` loop. -/
lemma wait_distance_succ (time delta : ℕ → ℚ) (distance accuracy timeout : ℚ)
    (fuel k : ℕ) :
    wait_distance time delta distance accuracy timeout (fuel + 1) k
      = if time k < time 0 + timeout then
          if fabs (delta k - distance) ≤ accuracy then some DistRes.reached
          else if delta k > distance + accuracy then some DistRes.overshootFail
          else wait_distance time delta distance accuracy timeout fuel (k + 1)
        else some DistRes.timedOut := rfl

/-- One unfolding of the `wait_location` loop. -/
lemma wait_location_succ (time delta alt : ℕ → ℚ)
    (accuracy timeout targetAlt heightAccuracy : ℚ) (fuel k : ℕ) :
    wait_location time delta alt accuracy timeout targetAlt heightAccuracy
      (fuel + 1) k
      = if time k < time 0 + timeout then
          if delta k ≤ accuracy then
            if heightAccuracy ≠ -1 ∧ fabs (alt k - targetAlt) > heightAccuracy
            then wait_location time delta alt accuracy timeout targetAlt
              heightAccuracy fuel (k + 1)
            else some LocRes.reached
          else wait_location time delta alt accuracy timeout targetAlt
            heightAccuracy fuel (k + 1)
        else some LocRes.timedOut := rfl

/-- `wait_distance` reaches the overshoot raise at iteration `k` when
the loop runs that far (guards pass, earlier samples neither reach nor
overshoot) and `delta k` exceeds `distance + accuracy`. -/
lemma wait_distance_overshoots (time delta : ℕ → ℚ)
    (distance accuracy timeout : ℚ) (k : ℕ)
    (hguard : ∀ i, 1 ≤ i → i ≤ k → time i < time 0 + timeout)
    (hpre : ∀ i, 1 ≤ i → i < k →
      ¬ fabs (delta i - distance) ≤ accuracy ∧
        ¬ delta i > distance + accuracy)
    (hover : delta k > distance + accuracy) :
    ∀ (n i : ℕ), 1 ≤ i → i ≤ k → k ≤ i + n →
      wait_distance time delta distance accuracy timeout (n + 1) i
        = some DistRes.overshootFail := by
  have hnotreach : ¬ fabs (delta k - distance) ≤ accuracy := by
    have h1 : accuracy < delta k - distance := by linarith
    exact not_le.mpr (lt_of_lt_of_le h1 (le_fabs_self _))
  intro n
  induction n with
  | zero =>
    intro i h1 hik hki
    have hk : i = k := by omega
    subst hk
    rw [wait_distance_succ, if_pos (hguard i h1 hik), if_neg hnotreach,
      if_pos hover]
  | succ n ih =>
    intro i h1 hik hki
    rcases eq_or_lt_of_le hik with hk | hk
    · subst hk
      rw [wait_distance_succ, if_pos (hguard i h1 le_rfl), if_neg hnotreach,
        if_pos hover]
    · obtain ⟨hnr, hno⟩ := hpre i h1 hk
      rw [wait_distance_succ, if_pos (hguard i h1 hik), if_neg hnr,
        if_neg hno]
      exact ih (i + 1) (by omega) hk (by omega)

/-- `wait_location` has no early-failure path: while the simulated
clock stays below the deadline it never raises, no matter how far the
measured distance diverges. -/
lemma wait_location_no_timeout (time delta alt : ℕ → ℚ)
    (accuracy timeout targetAlt heightAccuracy : ℚ)
    (hclock : ∀ i, time i < time 0 + timeout) :
    ∀ (fuel k : ℕ),
      wait_location time delta alt accuracy timeout targetAlt heightAccuracy
        fuel k ≠ some LocRes.timedOut := by
  intro fuel
  induction fuel with
  | zero => intro k; simp [wait_location]
  | succ fuel ih =>
    intro k
    rw [wait_location_succ, if_pos (hclock k)]
    by_cases h1 : delta k ≤ accuracy
    · rw [if_pos h1]
      by_cases h2 : heightAccuracy ≠ -1 ∧ fabs (alt k - targetAlt) > heightAccuracy
      · rw [if_pos h2]; exact ih (k + 1)
      · rw [if_neg h2]; simp
    · rw [if_neg h1]; exact ih (k + 1)

/-- C6 (counterexample): the location wait does NOT fast-fail on
divergence.  With clock `k`, accuracy 5 and the measured distance
`100 + k` (past `target + tolerance` from the very first sample and
growing), `wait_location` is still looping after 29 iterations (no
failure before the deadline) and raises only when the clock reaches
the 30-second deadline. -/
theorem wait_location_no_fast_fail_cex :
    wait_location (fun k => (k : ℚ)) (fun k => 100 + (k : ℚ)) (fun _ => 0)
      5 30 0 (-1) 29 1 = none ∧
    wait_location (fun k => (k : ℚ)) (fun k => 100 + (k : ℚ)) (fun _ => 0)
      5 30 0 (-1) 30 1 = some LocRes.timedOut := by
  constructor
  · with_unfolding_all decide
  · with_unfolding_all decide

/-- C6 (amended): only the distance wait fast-fails on overshoot: once
`delta` exceeds `distance + accuracy` at an iteration before the
deadline (the loop having neither reached nor overshot earlier), it
raises `WaitDistanceTimeout` immediately; the location wait, by
contrast, never raises while the clock is below the deadline, however
far the measured distance diverges. -/
theorem wait_overshoot_fast_fail_distance_only
    (timeD deltaD : ℕ → ℚ) (distance accuracy timeoutD : ℚ) (k : ℕ)
    (hk1 : 1 ≤ k)
    (hguardD : ∀ i, 1 ≤ i → i ≤ k → timeD i < timeD 0 + timeoutD)
    (hpre : ∀ i, 1 ≤ i → i < k →
      ¬ fabs (deltaD i - distance) ≤ accuracy ∧
        ¬ deltaD i > distance + accuracy)
    (hover : deltaD k > distance + accuracy)
    (timeL deltaL altL : ℕ → ℚ)
    (accuracyL timeoutL targetAlt heightAccuracy : ℚ)
    (hclockL : ∀ i, timeL i < timeL 0 + timeoutL) :
    wait_distance timeD deltaD distance accuracy timeoutD k 1
      = some DistRes.overshootFail ∧
    ∀ fuel k0, wait_location timeL deltaL altL accuracyL timeoutL targetAlt
      heightAccuracy fuel k0 ≠ some LocRes.timedOut := by
  constructor
  · obtain ⟨m, rfl⟩ : ∃ m, k = m + 1 := ⟨k - 1, by omega⟩
    exact wait_distance_overshoots timeD deltaD distance accuracy timeoutD
      (m + 1) hguardD hpre hover m 1 le_rfl hk1 (by omega)
  · exact wait_location_no_timeout timeL deltaL altL accuracyL timeoutL
      targetAlt heightAccuracy hclockL

/-- C6 (witness): distance wait with target 10 ± 5 and measured deltas
0 then 100 overshoots at iteration 2; a location wait whose clock
stays below the deadline never raises. -/
theorem wait_overshoot_fast_fail_distance_only_witness :
    wait_distance (fun k => (k : ℚ))
      (fun i => if i < 2 then (0 : ℚ) else 100) 10 5 30 2 1
      = some DistRes.overshootFail ∧
    ∀ fuel k0, wait_location (fun _ => (0 : ℚ)) (fun k => 100 + (k : ℚ))
      (fun _ => 0) 5 30 0 (-1) fuel k0 ≠ some LocRes.timedOut :=
  wait_overshoot_fast_fail_distance_only
    (fun k => (k : ℚ)) (fun i => if i < 2 then (0 : ℚ) else 100) 10 5 30 2
    (by omega)
    (fun i h1 h2 => by
      show (i : ℚ) < ((0 : ℕ) : ℚ) + 30
      have hc : (i : ℚ) ≤ 2 := by exact_mod_cast h2
      push_cast
      linarith)
    (fun i h1 h2 => by
      have hi : i = 1 := by omega
      subst hi
      exact ⟨show ¬ fabs ((0 : ℚ) - 10) ≤ 5 by with_unfolding_all decide,
        show ¬ (0 : ℚ) > 10 + 5 by norm_num⟩)
    (show (100 : ℚ) > 10 + 5 by norm_num)
    (fun _ => (0 : ℚ)) (fun k => 100 + (k : ℚ)) (fun _ => 0) 5 30 0 (-1)
    (fun i => show (0 : ℚ) < (0 : ℚ) + 30 by norm_num)

/-! ## C8: waypoint wait, skipped index -/

/-- One unfolding of the `wait_waypoint` loop (lets expanded). -/
lemma waitWpLoop_succ (env : WpEnv) (wpnumEnd : ℕ) (allowSkip : Bool)
    (maxDist timeout : ℚ) (fuel : ℕ) (st : WpSt) :
    waitWpLoop env wpnumEnd allowSkip maxDist timeout (fuel + 1) st
      = if env.time st.k < st.tstart + timeout then
          if env.modeChanged st.k then some WpRes.modeChangedFail
          else
            if (if env.seq st.k = st.currentWp + 1 ∨
                  (env.seq st.k > st.currentWp + 1 ∧ allowSkip)
                then env.seq st.k else st.currentWp) = wpnumEnd ∧
                env.wpDist st.k < maxDist
            then some WpRes.reached
            else if env.seq st.k ≥ 255 then some WpRes.reached
            else if env.seq st.k >
                (if env.seq st.k = st.currentWp + 1 ∨
                  (env.seq st.k > st.currentWp + 1 ∧ allowSkip)
                 then env.seq st.k else st.currentWp) + 1
            then some WpRes.skipped
            else waitWpLoop env wpnumEnd allowSkip maxDist timeout fuel
              { k := st.k + 1,
                tstart := if env.seq st.k = st.currentWp + 1 ∨
                    (env.seq st.k > st.currentWp + 1 ∧ allowSkip)
                  then env.time st.k else st.tstart,
                currentWp := if env.seq st.k = st.currentWp + 1 ∨
                    (env.seq st.k > st.currentWp + 1 ∧ allowSkip)
                  then env.seq st.k else st.currentWp,
                lastWpDist := if env.wpDist st.k ≠ st.lastWpDist ∨
                    env.alt st.k ≠ st.lastAlt
                  then env.wpDist st.k else st.lastWpDist,
                lastAlt := if env.wpDist st.k ≠ st.lastWpDist ∨
                    env.alt st.k ≠ st.lastAlt
                  then env.alt st.k else st.lastAlt }
        else some WpRes.timedOut := rfl

/-- In the leg-3-to-leg-3 scenario with skipping forbidden, an
iteration observing index 3 with `wp_dist ≥ max_dist = 2` (mode
unchanged, before the deadline) neither returns nor raises: the loop
continues with `current_wp` still 3. -/
lemma waitWp_step_continue (time wpDist alt : ℕ → ℚ) (seq : ℕ → ℕ)
    (modeChanged : ℕ → Bool) (fuel i : ℕ) (L A : ℚ)
    (hsi : seq i = 3) (hti : time i < time 0 + 400)
    (hmi : modeChanged i = false) (hdi : 2 ≤ wpDist i) :
    waitWpLoop ⟨time, seq, wpDist, alt, modeChanged⟩ 3 false 2 400 (fuel + 1)
      ⟨i, time 0, 3, L, A⟩
    = waitWpLoop ⟨time, seq, wpDist, alt, modeChanged⟩ 3 false 2 400 fuel
      ⟨i + 1, time 0, 3,
        if wpDist i ≠ L ∨ alt i ≠ A then wpDist i else L,
        if wpDist i ≠ L ∨ alt i ≠ A then alt i else A⟩ := by
  rw [waitWpLoop_succ]
  dsimp only
  rw [hsi]
  rw [if_pos hti]
  rw [if_neg (show ¬ modeChanged i = true by simp [hmi])]
  have hadv : ¬ ((3 : ℕ) = 3 + 1 ∨ ((3 : ℕ) > 3 + 1 ∧ false = true)) := by simp
  have hrd : ¬ ((if (3 : ℕ) = 3 + 1 ∨ ((3 : ℕ) > 3 + 1 ∧ false = true)
      then (3 : ℕ) else 3) = 3 ∧ wpDist i < 2) := by
    rw [if_neg hadv]
    rintro ⟨-, hlt⟩
    exact absurd hlt (not_lt.mpr hdi)
  rw [if_neg hrd]
  rw [if_neg (show ¬ (3 : ℕ) ≥ 255 by norm_num)]
  rw [if_neg (show ¬ ((3 : ℕ) > (if (3 : ℕ) = 3 + 1 ∨ ((3 : ℕ) > 3 + 1 ∧
      false = true) then (3 : ℕ) else 3) + 1) by rw [if_neg hadv]; norm_num)]
  rw [if_neg hadv, if_neg hadv]

/-- In the same scenario, the iteration first observing index 5 (with
skipping forbidden, `wp_dist ≥ 2`, mode unchanged, before the
deadline) raises the skipped-waypoint failure. -/
lemma waitWp_step_skip (time wpDist alt : ℕ → ℚ) (seq : ℕ → ℕ)
    (modeChanged : ℕ → Bool) (fuel i : ℕ) (L A : ℚ)
    (hsi : seq i = 5) (hti : time i < time 0 + 400)
    (hmi : modeChanged i = false) (hdi : 2 ≤ wpDist i) :
    waitWpLoop ⟨time, seq, wpDist, alt, modeChanged⟩ 3 false 2 400 (fuel + 1)
      ⟨i, time 0, 3, L, A⟩ = some WpRes.skipped := by
  rw [waitWpLoop_succ]
  dsimp only
  rw [hsi]
  rw [if_pos hti]
  rw [if_neg (show ¬ modeChanged i = true by simp [hmi])]
  have hadv : ¬ ((5 : ℕ) = 3 + 1 ∨ ((5 : ℕ) > 3 + 1 ∧ false = true)) := by simp
  have hrd : ¬ ((if (5 : ℕ) = 3 + 1 ∨ ((5 : ℕ) > 3 + 1 ∧ false = true)
      then (5 : ℕ) else 3) = 3 ∧ wpDist i < 2) := by
    rw [if_neg hadv]
    rintro ⟨-, hlt⟩
    exact absurd hlt (not_lt.mpr hdi)
  rw [if_neg hrd]
  rw [if_neg (show ¬ (5 : ℕ) ≥ 255 by norm_num)]
  rw [if_pos (show (5 : ℕ) > (if (5 : ℕ) = 3 + 1 ∨ ((5 : ℕ) > 3 + 1 ∧
      false = true) then (5 : ℕ) else 3) + 1 by rw [if_neg hadv]; norm_num)]

/-- C8 (counterexample): the claim does not hold for every value of
the waypoint-distance telemetry.  With wp_dist = 0 (below the
`max_dist = 2` cutoff) the wait returns success at its very first
sample — `current_wp == wpnum_end and wp_dist < max_dist` fires before
the skip check, so index 5 is never even observed, and no
skipped-waypoint failure is raised. -/
theorem wait_waypoint_skip_cex :
    wait_waypoint ⟨fun k => (k : ℚ), fun k => if k ≤ 2 then 3 else 5,
      fun _ => 0, fun _ => 0, fun _ => false⟩ 3 false 2 400 1
      = some WpRes.reached := by
  with_unfolding_all decide

/-- C8 (amended): the leg-3-to-leg-3 wait with `allow_skip=False`
observing sequence indices [3, 3, 5] before the deadline raises the
skipped-waypoint `WaitWaypointTimeout` upon observing index 5,
provided every observed `wp_dist` is at least `max_dist = 2` (with
smaller `wp_dist` the wait instead succeeds, see the counterexample);
altitude readings and an unchanged flight mode remain arbitrary. -/
theorem wait_waypoint_skip_raises (time wpDist alt : ℕ → ℚ) (seq : ℕ → ℕ)
    (modeChanged : ℕ → Bool)
    (hseq0 : seq 0 = 3) (hseq1 : seq 1 = 3) (hseq2 : seq 2 = 3)
    (hseq3 : seq 3 = 5)
    (hmode : ∀ i, 1 ≤ i → i ≤ 3 → modeChanged i = false)
    (hdist : ∀ i, 1 ≤ i → i ≤ 3 → 2 ≤ wpDist i)
    (htime : ∀ i, 1 ≤ i → i ≤ 3 → time i < time 0 + 400) :
    wait_waypoint ⟨time, seq, wpDist, alt, modeChanged⟩ 3 false 2 400 3
      = some WpRes.skipped := by
  have h0 : wait_waypoint ⟨time, seq, wpDist, alt, modeChanged⟩ 3 false 2 400 3
      = waitWpLoop ⟨time, seq, wpDist, alt, modeChanged⟩ 3 false 2 400 (2 + 1)
        ⟨1, time 0, 3, 0, 0⟩ := by
    show waitWpLoop ⟨time, seq, wpDist, alt, modeChanged⟩ 3 false 2 400 3
      ⟨1, time 0, seq 0, 0, 0⟩ = _
    rw [hseq0]
  exact h0.trans
    ((waitWp_step_continue time wpDist alt seq modeChanged 2 1 0 0
        hseq1 (htime 1 (by omega) (by omega)) (hmode 1 (by omega) (by omega))
        (hdist 1 (by omega) (by omega))).trans
      ((waitWp_step_continue time wpDist alt seq modeChanged 1 2 _ _
          hseq2 (htime 2 (by omega) (by omega)) (hmode 2 (by omega) (by omega))
          (hdist 2 (by omega) (by omega))).trans
        (waitWp_step_skip time wpDist alt seq modeChanged 0 3 _ _
          hseq3 (htime 3 (by omega) (by omega)) (hmode 3 (by omega) (by omega))
          (hdist 3 (by omega) (by omega)))))

/-- C8 (witness): the amended behaviour at concrete telemetry: indices
[3, 3, 5], wp_dist constantly 2, altitude 0, mode unchanged, clock
`k`. -/
theorem wait_waypoint_skip_raises_witness :
    wait_waypoint ⟨fun k => (k : ℚ), fun k => if k ≤ 2 then 3 else 5,
      fun _ => 2, fun _ => 0, fun _ => false⟩ 3 false 2 400 3
      = some WpRes.skipped :=
  wait_waypoint_skip_raises (fun k => (k : ℚ)) (fun _ => 2) (fun _ => 0)
    (fun k => if k ≤ 2 then 3 else 5) (fun _ => false)
    (by norm_num) (by norm_num) (by norm_num) (by norm_num)
    (fun i h1 h3 => rfl)
    (fun i h1 h3 => show (2 : ℚ) ≤ 2 from le_rfl)
    (fun i h1 h3 => by
      show (i : ℚ) < ((0 : ℕ) : ℚ) + 400
      have hc : (i : ℚ) ≤ 3 := by exact_mod_cast h3
      push_cast
      linarith)
